import Mathlib

/-!
Verification of the object-group collection (`src/libtiled/objectgroup.cpp`).

Shallow embedding of the ordered object collection and its hybrid name
sort.  Entities (`MapObject`) are modelled as a numeric handle identity
plus a name; C++ `int` indices are modelled as `Int` (with `Int.tdiv`
for C++'s truncating division), container accesses are bounds-checked
(`Res.oob` models the undefined behaviour of an out-of-range access),
`Q_ASSERT` failures are `Res.err`, and every `while` loop carries a step
budget: a loop that returns `Res.hang` for every budget never exits.
-/

/-- Outcome of running a modelled C++ computation: a normal return, an
out-of-bounds container access (undefined behaviour in the source), a
failed `Q_ASSERT`, or exhaustion of the step budget given to a `while`
loop (`hang` for every budget means the loop never terminates). -/
inductive Res (α : Type) where
  | ok (a : α)
  | oob
  | err
  | hang
deriving Repr, DecidableEq

/-- Sequencing of modelled computations; abnormal outcomes propagate. -/
def Res.bind {α β : Type} : Res α → (α → Res β) → Res β
  | .ok a, f => f a
  | .oob, _ => .oob
  | .err, _ => .err
  | .hang, _ => .hang

/-- An entity of the collection: `oid` is the handle identity (two
`MapObject*` pointers are the same object iff they carry the same
`oid`), `name` is the sort key.  `MapObject::equals` keys on identity,
which structural equality of this type models. -/
structure MapObject where
  oid : Nat
  name : List Char
deriving Repr, DecidableEq

/-- `vec[i]` read on a `QVector<MapObject*>`: out of range is UB. -/
def geti (l : List MapObject) (i : Int) : Res MapObject :=
  if 0 ≤ i then
    match l.get? i.toNat with
    | some x => .ok x
    | none => .oob
  else .oob

/-- `vec[i] = x` write: out of range is UB. -/
def seti (l : List MapObject) (i : Int) (x : MapObject) : Res (List MapObject) :=
  if 0 ≤ i ∧ i < (l.length : Int) then .ok (l.set i.toNat x) else .oob

/-- `vec.remove(i)` (`QVector::remove`): out of range is UB. -/
def removeAti (l : List MapObject) (i : Int) : Res (List MapObject) :=
  if 0 ≤ i ∧ i < (l.length : Int) then .ok (l.eraseIdx i.toNat) else .oob

/-- `vec.insert(i, x)` (`QVector`/`QList::insert`): valid for `0 ≤ i ≤ size`. -/
def insi (l : List MapObject) (i : Int) (x : MapObject) : Res (List MapObject) :=
  if 0 ≤ i ∧ i ≤ (l.length : Int) then .ok (l.insertIdx i.toNat x) else .oob

/-- Case-insensitive lexicographic comparison of names, the model of
`QString::compare(a, b, Qt::CaseInsensitive)`'s sign (folding each
character with `Char.toLower`). -/
def ciCmp : List Char → List Char → Ordering
  | [], [] => .eq
  | [], _ :: _ => .lt
  | _ :: _, [] => .gt
  | a :: as, b :: bs =>
    if a.toLower.toNat < b.toLower.toNat then .lt
    else if b.toLower.toNat < a.toLower.toNat then .gt
    else ciCmp as bs

/-- `QString::compare(a, b, Qt::CaseInsensitive) >= 0`. -/
def ciGE (a b : List Char) : Bool := ciCmp a b != .lt

/-- `QString::compare(a, b, Qt::CaseInsensitive) <= 0`. -/
def ciLE (a b : List Char) : Bool := ciCmp a b != .gt

/-- Non-decreasing by case-insensitive name, the sortedness predicate of
the specification. -/
def ciSorted : List MapObject → Prop
  | [] => True
  | [_] => True
  | a :: b :: t => ciCmp a.name b.name ≠ .gt ∧ ciSorted (b :: t)

/-! ## The reorder step (`ObjectGroup::reorder`) -/

/-- The excision loop of `ObjectGroup::reorder`: scan `i = b, b+1, ...`
(`k` iterations remain, mirroring `for (i = begin; i < end; i++)`) for
the first element with `vec[i]->equals(pivot)`; remove it and stop
(`end--` is reported through the returned flag). -/
def exciseGo (pivot : MapObject) : Nat → Int → List MapObject → Res (List MapObject × Bool)
  | 0, _, vec => .ok (vec, false)
  | k + 1, i, vec =>
    Res.bind (geti vec i) fun x =>
    if x = pivot then
      Res.bind (removeAti vec i) fun v => .ok (v, true)
    else exciseGo pivot k (i + 1) vec

/-- `for (i = 0; i < begin; i++) newVec.push_front(vec[i]);` -/
def reorderFront : Nat → Int → List MapObject → List MapObject → Res (List MapObject)
  | 0, _, _, nv => .ok nv
  | k + 1, i, vec, nv =>
    Res.bind (geti vec i) fun x => reorderFront k (i + 1) vec (x :: nv)

/-- The middle loop of `ObjectGroup::reorder`: for `i = begin .. end-1`,
an element with `compare(checkString, vec[i]->name(), CaseInsensitive) >= 0`
is inserted at index `begin` of `newVec` and bumps `pivotLocation`;
any other element is appended at the back. -/
def reorderMid (check : List Char) (b : Int) :
    Nat → Int → List MapObject → List MapObject → Int → Res (List MapObject × Int)
  | 0, _, _, nv, pl => .ok (nv, pl)
  | k + 1, i, vec, nv, pl =>
    Res.bind (geti vec i) fun x =>
    if ciGE check x.name then
      Res.bind (insi nv b x) fun nv' => reorderMid check b k (i + 1) vec nv' (pl + 1)
    else
      reorderMid check b k (i + 1) vec (nv ++ [x]) pl

/-- `for (i = end; i < vec.size(); i++) newVec.append(vec[i]);` -/
def reorderBack : Nat → Int → List MapObject → List MapObject → Res (List MapObject)
  | 0, _, _, nv => .ok nv
  | k + 1, i, vec, nv =>
    Res.bind (geti vec i) fun x => reorderBack k (i + 1) vec (nv ++ [x])

/-- `ObjectGroup::reorder(vec, pivot, begin, end)`: excise the first
occurrence equal (by identity) to the pivot, then rebuild the buffer as
`newVec`, starting from `[pivot]`, via the three loops above; returns
the rebuilt buffer and `pivotLocation`. -/
def reorderF (vec : List MapObject) (pivot : MapObject) (b e : Int) :
    Res (List MapObject × Int) :=
  let check := pivot.name
  Res.bind (exciseGo pivot (e - b).toNat b vec) fun pr =>
  let vec1 := pr.1
  let e1 := if pr.2 then e - 1 else e
  Res.bind (reorderFront b.toNat 0 vec1 [pivot]) fun nv1 =>
  Res.bind (reorderMid check b (e1 - b).toNat b vec1 nv1 b) fun pr2 =>
  Res.bind (reorderBack ((vec1.length : Int) - e1).toNat e1 vec1 pr2.1) fun nv3 =>
  .ok (nv3, pr2.2)

/-! ## The partition step (`ObjectGroup::partition`) -/

/-- `ObjectGroup::partition(vec, begin, end)`: reads the candidates at
`begin`, `begin + (end-begin)/2` and `end-1`, decides their order by six
case-insensitive comparisons, rearranges them — writing at the absolute
indices `0` and `vec.size()-1` exactly as the source does — and calls
`reorder` with the median as pivot. -/
def partitionF (vec : List MapObject) (b e : Int) : Res (List MapObject × Int) :=
  Res.bind (geti vec b) fun first =>
  Res.bind (geti vec (e - 1)) fun last =>
  Res.bind (geti vec (b + Int.tdiv (e - b) 2)) fun middle =>
  let start := first.name
  let midway := middle.name
  let finish := last.name
  let len : Int := vec.length
  if ciGE start finish then
    if ciGE start midway then
      if ciGE midway finish then
        -- midway is the median (order: finish, midway, start)
        Res.bind (seti vec 0 last) fun v1 =>
        Res.bind (seti v1 (len - 1) first) fun v2 =>
        reorderF v2 middle b e
      else
        -- finish is the median (order: midway, finish, start)
        Res.bind (seti vec 0 middle) fun v1 =>
        Res.bind (seti v1 (b + Int.tdiv (e - b) 2) last) fun v2 =>
        Res.bind (seti v2 (len - 1) first) fun v3 =>
        reorderF v3 last b e
    else
      -- start is the median (order: finish, start, midway)
      Res.bind (seti vec 0 last) fun v1 =>
      Res.bind (seti v1 (b + Int.tdiv (e - b) 2) first) fun v2 =>
      Res.bind (seti v2 (len - 1) middle) fun v3 =>
      reorderF v3 first b e
  else
    if ciLE start midway then
      if ciGE midway finish then
        -- finish is the median (order: start, finish, midway)
        Res.bind (seti vec (b + Int.tdiv (e - b) 2) last) fun v1 =>
        Res.bind (seti v1 (len - 1) middle) fun v2 =>
        reorderF v2 last b e
      else
        -- midway is the median (order: start, midway, finish)
        reorderF vec middle b e
    else
      -- start is the median (order: midway, start, finish)
      Res.bind (seti vec 0 middle) fun v1 =>
      Res.bind (seti v1 (b + Int.tdiv (e - b) 2) first) fun v2 =>
      reorderF v2 first b e

/-! ## The heap-sort fallback (`ObjectGroup::heapSort` and helpers)

`siftDown` compares `MapObject*` pointers (`vec[swap] < vec[child]`) —
an address comparison, not a name comparison.  The address order is not
derivable from the source, so it is a parameter `pLt` of the model. -/

/-- `ObjectGroup::siftDown(vec, siftBegin, siftEnd)` starting from
`root`: while `root*2 + 1 <= siftEnd`, re-initialise `swap = root` and
run the `if`/`else if` chain.  When the first test (`vec[swap] <
vec[child]`) or the second (`child+1 <= siftEnd && vec[swap] <
vec[child+1]`) fires, the chain ends with only `swap` changed and the
loop re-runs on an unchanged state; otherwise `swap == root` still
holds, so the third branch returns (the final swapping branch of the
source is unreachable). -/
def siftDownGo (pLt : MapObject → MapObject → Bool) (siftEnd : Int) :
    Nat → Int → List MapObject → Res (List MapObject)
  | fuel, root, vec =>
    if 2 * root + 1 ≤ siftEnd then
      match fuel with
      | 0 => .hang
      | f + 1 =>
        let child := 2 * root + 1
        Res.bind (geti vec root) fun r =>
        Res.bind (geti vec child) fun c =>
        if pLt r c then
          siftDownGo pLt siftEnd f root vec
        else if child + 1 ≤ siftEnd then
          Res.bind (geti vec (child + 1)) fun c1 =>
          if pLt r c1 then siftDownGo pLt siftEnd f root vec
          else .ok vec
        else .ok vec
    else .ok vec

/-- The loop body count of `ObjectGroup::heapify`: run `siftDown(vec,
begin, end-1)` once per remaining iteration (`start` only drives the
count; every call sifts from `begin`). -/
def heapifyGo (pLt : MapObject → MapObject → Bool) (F : Nat) (b siftEnd : Int) :
    Nat → List MapObject → Res (List MapObject)
  | 0, vec => .ok vec
  | k + 1, vec =>
    Res.bind (siftDownGo pLt siftEnd F b vec) fun v => heapifyGo pLt F b siftEnd k v

/-- `ObjectGroup::heapify(vec, begin, end)`: `start = begin +
(end-2)/2` (truncating `int` division), then `while (start >= begin)`,
giving `start - begin + 1` iterations. -/
def heapifyF (pLt : MapObject → MapObject → Bool) (F : Nat)
    (vec : List MapObject) (b e : Int) : Res (List MapObject) :=
  let start := b + Int.tdiv (e - 2) 2
  heapifyGo pLt F b (e - 1) (start - b + 1).toNat vec

/-- The `while (last > 0)` loop of `ObjectGroup::heapSort`: swap
`vec[begin]` with `vec[last]`, decrement `end`, sift down from `begin`.
`last` is fixed — the source never decrements it. -/
def heapSortGo (pLt : MapObject → MapObject → Bool) (F : Nat) (b last : Int) :
    Nat → List MapObject → Int → Res (List MapObject)
  | fuel, vec, e =>
    if last > 0 then
      match fuel with
      | 0 => .hang
      | f + 1 =>
        Res.bind (geti vec b) fun tb =>
        Res.bind (geti vec last) fun tl =>
        Res.bind (seti vec b tl) fun v1 =>
        Res.bind (seti v1 last tb) fun v2 =>
        Res.bind (siftDownGo pLt (e - 1) F b v2) fun v3 =>
        heapSortGo pLt F b last f v3 (e - 1)
    else .ok vec

/-- `ObjectGroup::heapSort(vec, begin, end)`: heapify, set
`last = end - 1`, then run the swap loop. -/
def heapSortF (pLt : MapObject → MapObject → Bool) (F : Nat)
    (vec : List MapObject) (b e : Int) : Res (List MapObject) :=
  Res.bind (heapifyF pLt F vec b e) fun v =>
  heapSortGo pLt F b (e - 1) F v e

/-! ## The recursive driver and entry point -/

/-- `ObjectGroup::introSort(vec, maxDepth, begin, end)`.  Note `n` is
`vec.size()`, the whole buffer's size, exactly as in the source.  The
depth is a `Nat`: the only caller (`sort`) passes `2 * floor(log2 n) ≥ 0`
and the recursion decrements it only when it is nonzero, so the C++
`int` depth never goes negative. -/
def introSort (pLt : MapObject → MapObject → Bool) (F : Nat) :
    Nat → List MapObject → Int → Int → Res (List MapObject)
  | d, vec, b, e =>
    let n : Int := vec.length
    if n ≤ 1 then .ok vec
    else if n = 2 then
      Res.bind (geti vec 0) fun v0 =>
      Res.bind (geti vec 1) fun v1 =>
      if ciGE v0.name v1.name then
        Res.bind (seti vec 0 v1) fun va => seti va 1 v0
      else .ok vec
    else
      match d with
      | 0 => heapSortF pLt F vec b e
      | d' + 1 =>
        Res.bind (partitionF vec b e) fun pr =>
        Res.bind (introSort pLt F d' pr.1 b pr.2) fun v2 =>
        introSort pLt F d' v2 (pr.2 + 1) e

/-- Structural-recursion computation of `(int) std::floor(std::log2 n)`
for `n ≥ 1` (the first argument is a sufficient fuel). -/
def floorLog2Go : Nat → Nat → Nat
  | 0, _ => 0
  | f + 1, n => if n ≤ 1 then 0 else floorLog2Go f (n / 2) + 1

/-- `(int) std::floor(std::log2(list.size()))`; meaningful for sizes
`≥ 1` (the C++ expression is undefined for an empty list, which
`insertObject`, the only path into `sort`, never produces). -/
def floorLog2 (n : Nat) : Nat := floorLog2Go n n

/-- `ObjectGroup::sort(list)`: `maxDepth = floor(log2 size) * 2`, copy
to a working buffer, run `introSort` over `[0, size)`, copy back. -/
def sortF (pLt : MapObject → MapObject → Bool) (F : Nat) (l : List MapObject) :
    Res (List MapObject) :=
  let maxDepth := floorLog2 l.length * 2
  introSort pLt F maxDepth l 0 (l.length : Int)

/-- `ObjectGroup::insertObject(index, object)`: `mObjects.insert(index,
object)` then `sort(mObjects)`.  The back-reference update and the
identity assignment that follow touch the external map  object, not the
sequence, and are not modelled. -/
def insertObjectF (pLt : MapObject → MapObject → Bool) (F : Nat)
    (index : Int) (obj : MapObject) (objs : List MapObject) : Res (List MapObject) :=
  Res.bind (insi objs index obj) fun l => sortF pLt F l

/-! ## `ObjectGroup::moveObjects` -/

/-- `QList::mid(pos, len)`.  Qt clamps out-of-range arguments; in the
in-range region used below (`0 ≤ pos`, `0 ≤ len`, `pos + len ≤ size`)
it is exactly drop-then-take. -/
def midQ (l : List MapObject) (pos len : Int) : List MapObject :=
  (l.drop pos.toNat).take len.toNat

/-- `mObjects.erase(begin() + a, begin() + b)`: valid iterators require
`0 ≤ a ≤ b ≤ size`, otherwise UB. -/
def eraseRange (l : List MapObject) (a b : Int) : Res (List MapObject) :=
  if 0 ≤ a ∧ a ≤ b ∧ b ≤ (l.length : Int) then .ok (l.take a.toNat ++ l.drop b.toNat)
  else .oob

/-- `for (i = 0; i < count; i++) mObjects.insert(to + i, movingObjects.at(i));` -/
def moveInsertGo (moving : List MapObject) (toPos : Int) :
    Nat → Int → List MapObject → Res (List MapObject)
  | 0, _, acc => .ok acc
  | k + 1, i, acc =>
    Res.bind (geti moving i) fun x =>
    Res.bind (insi acc (toPos + i) x) fun acc' =>
    moveInsertGo moving toPos k (i + 1) acc'

/-- `ObjectGroup::moveObjects(from, to, count)`: two `Q_ASSERT`s, the
three-way no-op test, then extract / erase / adjust `to` / reinsert. -/
def moveObjectsF (frm toArg cnt : Int) (l : List MapObject) : Res (List MapObject) :=
  if ¬ (cnt ≥ 0) then .err
  else if ¬ (toArg ≤ frm ∨ toArg ≥ frm + cnt) then .err
  else if toArg = frm ∨ toArg = frm + cnt ∨ cnt = 0 then .ok l
  else
    let moving := midQ l frm cnt
    Res.bind (eraseRange l frm (frm + cnt)) fun l1 =>
    let t := if toArg > frm then toArg - cnt else toArg
    moveInsertGo moving t cnt.toNat 0 l1

/-! ## `ObjectGroup::mergedWith` and cloning

The heap of entity handles and owning-group back-references is made
explicit: `St.nextH` is the fresh-handle counter, `St.owner` maps a
handle to the `gid` of the group whose `setObjectGroup` was called last.
`MapObject::clone` and `Layer::initializeClone` live outside `src/`:
cloning is modelled from the spec as allocation of a fresh handle
(`clone() -> owned Entity`), and the `Layer` part of `initializeClone`
copies scalar attributes only, so it does not touch handles. -/

/-- Heap state: fresh-handle counter and owning-group back-references. -/
structure St where
  nextH : Nat
  owner : Nat → Option Nat

/-- An `ObjectGroup`: its own identity and its owned handle sequence.
The scalar attributes (`color`, `drawOrder`, name, position) are copied
wholesale by clone/merge and play no role in the claims. -/
structure OGrp where
  gid : Nat
  objs : List Nat

/-- `ObjectGroup::addObject(o)`: append the handle and set its
back-reference (identity assignment via the owning map is skipped: the
merge/clone paths run with no `mMap`). -/
def addObjectH (g : OGrp) (x : Nat) (st : St) : OGrp × St :=
  ({ g with objs := g.objs ++ [x] },
   { st with owner := fun k => if k = x then some g.gid else st.owner k })

/-- Modelled from the spec: `Entity.clone() -> owned Entity`, a fresh
handle. -/
def cloneObjH (st : St) : Nat × St := (st.nextH, { st with nextH := st.nextH + 1 })

/-- One step of the clone-append loops: `addObject(object->clone())`. -/
def addCloneH (acc : OGrp × St) (_src : Nat) : OGrp × St :=
  let pr := cloneObjH acc.2
  addObjectH acc.1 pr.1 pr.2

/-- `ObjectGroup::initializeClone(clone)`: clone-append every owned
entity into `clone` (scalar attribute copies omitted, see above). -/
def initializeCloneH (src cl : OGrp) (st : St) : OGrp × St :=
  src.objs.foldl addCloneH (cl, st)

/-- `ObjectGroup::clone()`: a fresh group initialised from this one. -/
def cloneOGrpH (src : OGrp) (st : St) : OGrp × St :=
  initializeCloneH src { gid := st.nextH, objs := [] } { st with nextH := st.nextH + 1 }

/-- `ObjectGroup::canMergeWith(other)`: `other->isObjectGroup()`. -/
def canMergeWithH (_a _b : OGrp) : Bool := true

/-- `ObjectGroup::mergedWith(other)`: clone `this`, then clone-append
every entity of `other`. -/
def mergedWithH (a b : OGrp) (st : St) : OGrp × St :=
  b.objs.foldl addCloneH (cloneOGrpH a st)

/-! ## Concrete entities used in the claim instances -/

def oA : MapObject := ⟨1, ['a']⟩

def oB : MapObject := ⟨2, ['b']⟩

def oC : MapObject := ⟨3, ['c']⟩

def oX : MapObject := ⟨4, ['x']⟩

def oY : MapObject := ⟨5, ['y']⟩

/-! ## Theorems -/

@[simp] theorem Res.bind_ok {α β : Type} (a : α) (f : α → Res β) :
    Res.bind (.ok a) f = f a := rfl

@[simp] theorem Res.bind_oob {α β : Type} (f : α → Res β) :
    Res.bind (.oob : Res α) f = .oob := rfl

@[simp] theorem Res.bind_err {α β : Type} (f : α → Res β) :
    Res.bind (.err : Res α) f = .err := rfl

@[simp] theorem Res.bind_hang {α β : Type} (f : α → Res β) :
    Res.bind (.hang : Res α) f = .hang := rfl

/-- A `siftDown` whose root already has no child in range returns at
once, whatever the budget. -/
theorem siftDownGo_skip (pLt : MapObject → MapObject → Bool) (s : Int) (f : Nat)
    (root : Int) (vec : List MapObject) (h : ¬ 2 * root + 1 ≤ s) :
    siftDownGo pLt s f root vec = .ok vec := by
  rw [siftDownGo.eq_def]
  dsimp only
  rw [if_neg h]

/-- The `heapSort` swap loop exits at once when `last ≤ 0`, whatever
the budget. -/
theorem heapSortGo_skip (pLt : MapObject → MapObject → Bool) (F : Nat) (b last : Int)
    (f : Nat) (vec : List MapObject) (e : Int) (h : ¬ last > 0) :
    heapSortGo pLt F b last f vec e = .ok vec := by
  rw [heapSortGo.eq_def]
  dsimp only
  rw [if_neg h]

/-- When the first comparison of the `siftDown` chain fires, the body
changes nothing and the loop re-runs forever: `hang` for every budget. -/
theorem siftDownGo_stuckFirst (pLt : MapObject → MapObject → Bool) (s root : Int)
    (vec : List MapObject) (r c : MapObject) (hcond : 2 * root + 1 ≤ s)
    (hr : geti vec root = .ok r) (hc : geti vec (2 * root + 1) = .ok c)
    (hp : pLt r c = true) :
    ∀ f, siftDownGo pLt s f root vec = .hang := by
  intro f
  induction f with
  | zero =>
    rw [siftDownGo.eq_def]
    dsimp only
    rw [if_pos hcond]
  | succ f ih =>
    rw [siftDownGo.eq_def]
    dsimp only
    rw [if_pos hcond]
    simp only [hr, hc, Res.bind_ok, hp, if_pos]
    exact ih

/-- The divergent tail state reached by `sort` on the three-entity
instance: `begin = 2`, `last = 1`, both swap slots hold `oA`, so the
swap loop cycles on a constant buffer while `end` only decreases. -/
theorem heapSortGo_tailBAA (pLt : MapObject → MapObject → Bool) (F : Nat) :
    ∀ (f : Nat) (e : Int), e ≤ 2 → heapSortGo pLt F 2 1 f [oB, oA, oA] e = .hang := by
  intro f
  induction f with
  | zero =>
    intro e he
    rw [heapSortGo.eq_def]
    dsimp only
    rw [if_pos (by norm_num)]
  | succ f ih =>
    intro e he
    rw [heapSortGo.eq_def]
    dsimp only
    rw [if_pos (by norm_num)]
    have h1 : geti [oB, oA, oA] 2 = .ok oA := rfl
    have h2 : geti [oB, oA, oA] 1 = .ok oA := rfl
    have h3 : seti [oB, oA, oA] 2 oA = .ok [oB, oA, oA] := rfl
    have h4 : seti [oB, oA, oA] 1 oA = .ok [oB, oA, oA] := rfl
    rw [h1]
    simp only [Res.bind_ok]
    rw [h2]
    simp only [Res.bind_ok]
    rw [h3]
    simp only [Res.bind_ok]
    rw [h4]
    simp only [Res.bind_ok]
    rw [siftDownGo_skip pLt (e - 1) F 2 [oB, oA, oA] (by omega)]
    simp only [Res.bind_ok]
    exact ih (e - 1) (by omega)

set_option maxHeartbeats 1600000 in
/-- **C1.** The name sort does not preserve the multiset of entity
identities.  On the three entities named `b`, `a`, `c`, `sort` never
returns at all (for every loop budget), and the recursion's visited
sub-range call `partition(vec, 0, 1)` on the intermediate buffer
`[oA, oB, oC]` rebuilds it as `[oA, oB, oA]`: entity `oC` is lost and
`oA` duplicated — not a permutation of the input. -/
theorem sortF_diverges_and_loses_entities :
    (∀ (pLt : MapObject → MapObject → Bool) (F : Nat),
        sortF pLt F [oB, oA, oC] = .hang) ∧
    partitionF [oA, oB, oC] 0 1 = .ok ([oA, oB, oA], 0) ∧
    ¬ ([oA, oB, oA].Perm [oA, oB, oC]) := by
  refine ⟨?_, by decide, by decide⟩
  intro pLt F
  cases F with
  | zero => rfl
  | succ g =>
    have h := heapSortGo_tailBAA pLt (g + 1) g 1 (by norm_num)
    show Res.bind (heapSortGo pLt (g + 1) 2 1 g [oB, oA, oA] (2 - 1))
        (fun v2 => introSort pLt (g + 1) 0 v2 3 3) = Res.hang
    rw [show ((2 : Int) - 1) = 1 from rfl, h]
    rfl

set_option maxHeartbeats 1600000 in
/-- **C2.** `insertObject` does not leave the collection sorted: on the
two-entity collection `[oA, oC]`, inserting `oB` at index 0 (a valid
index) runs the full sort on three entities, and that sort never
returns for any loop budget — there is no post-insert sequence at all,
sorted or otherwise. -/
theorem insertObjectF_diverges :
    ∀ (pLt : MapObject → MapObject → Bool) (F : Nat),
      insertObjectF pLt F 0 oB [oA, oC] = .hang := by
  intro pLt F
  cases F with
  | zero => rfl
  | succ g =>
    have h := heapSortGo_tailBAA pLt (g + 1) g 1 (by norm_num)
    show Res.bind (heapSortGo pLt (g + 1) 2 1 g [oB, oA, oA] (2 - 1))
        (fun v2 => introSort pLt (g + 1) 0 v2 3 3) = Res.hang
    rw [show ((2 : Int) - 1) = 1 from rfl, h]
    rfl

/-- Divergent tail of the swap loop on a two-element range
(`begin = 0`, `last = 1`): once `end ≤ 1` the sift is a no-op and the
loop just swaps the pair back and forth forever. -/
theorem heapSortGo_tail2 (pLt : MapObject → MapObject → Bool) (F : Nat) :
    ∀ (f : Nat) (e : Int) (u v : MapObject), e ≤ 1 →
      heapSortGo pLt F 0 1 f [u, v] e = .hang := by
  intro f
  induction f with
  | zero =>
    intro e u v he
    rw [heapSortGo.eq_def]
    dsimp only
    rw [if_pos (by norm_num)]
  | succ f ih =>
    intro e u v he
    rw [heapSortGo.eq_def]
    dsimp only
    rw [if_pos (by norm_num)]
    have h1 : geti [u, v] 0 = .ok u := rfl
    have h2 : geti [u, v] 1 = .ok v := rfl
    have h3 : seti [u, v] 0 v = .ok [v, v] := rfl
    have h4 : seti [v, v] 1 u = .ok [v, u] := rfl
    rw [h1]
    simp only [Res.bind_ok]
    rw [h2]
    simp only [Res.bind_ok]
    rw [h3]
    simp only [Res.bind_ok]
    rw [h4]
    simp only [Res.bind_ok]
    rw [siftDownGo_skip pLt (e - 1) F 0 [v, u] (by omega)]
    simp only [Res.bind_ok]
    exact ih (e - 1) v u (by omega)

set_option maxHeartbeats 800000 in
/-- **C4.** `heapSort` on a range of size two never terminates, for any
pointer order and any loop budget: the swap loop's guard variable
`last = end - 1` is never decremented, so `while (last > 0)` never
exits (and when the address comparison makes a `siftDown` branch fire,
that inner loop never exits either). -/
theorem heapSortF_two_element_range_diverges :
    ∀ (pLt : MapObject → MapObject → Bool) (F : Nat),
      heapSortF pLt F [oY, oX] 0 2 = .hang := by
  intro pLt F
  cases F with
  | zero => rfl
  | succ g =>
    cases hyx : pLt oY oX with
    | true =>
      have hsd := siftDownGo_stuckFirst pLt 1 0 [oY, oX] oY oX (by norm_num) rfl rfl hyx
      show Res.bind
          (Res.bind (siftDownGo pLt 1 (g + 1) 0 [oY, oX])
            (fun v => heapifyGo pLt (g + 1) 0 1 0 v))
          (fun v => heapSortGo pLt (g + 1) 0 1 (g + 1) v 2) = Res.hang
      rw [hsd (g + 1)]
      rfl
    | false =>
      have hsd : siftDownGo pLt 1 (g + 1) 0 [oY, oX] = .ok [oY, oX] := by
        rw [siftDownGo.eq_def]
        dsimp only
        rw [if_pos (by norm_num)]
        have g0 : geti [oY, oX] 0 = .ok oY := rfl
        have g1 : geti [oY, oX] (2 * 0 + 1) = .ok oX := rfl
        simp only [g0, g1, Res.bind_ok]
        simp [hyx]
      show Res.bind
          (Res.bind (siftDownGo pLt 1 (g + 1) 0 [oY, oX])
            (fun v => heapifyGo pLt (g + 1) 0 1 0 v))
          (fun v => heapSortGo pLt (g + 1) 0 1 (g + 1) v 2) = Res.hang
      rw [hsd]
      simp only [Res.bind_ok]
      have hify : heapifyGo pLt (g + 1) 0 1 0 [oY, oX] = .ok [oY, oX] := rfl
      rw [hify]
      simp only [Res.bind_ok]
      cases hxy : pLt oX oY with
      | true =>
        have hsd2 := siftDownGo_stuckFirst pLt 1 0 [oX, oY] oX oY (by norm_num) rfl rfl hxy
        show Res.bind (siftDownGo pLt 1 (g + 1) 0 [oX, oY])
            (fun v3 => heapSortGo pLt (g + 1) 0 1 g v3 1) = Res.hang
        rw [hsd2 (g + 1)]
        rfl
      | false =>
        have hsd2 : siftDownGo pLt 1 (g + 1) 0 [oX, oY] = .ok [oX, oY] := by
          rw [siftDownGo.eq_def]
          dsimp only
          rw [if_pos (by norm_num)]
          have g0 : geti [oX, oY] 0 = .ok oX := rfl
          have g1 : geti [oX, oY] (2 * 0 + 1) = .ok oY := rfl
          simp only [g0, g1, Res.bind_ok]
          simp [hxy]
        show Res.bind (siftDownGo pLt 1 (g + 1) 0 [oX, oY])
            (fun v3 => heapSortGo pLt (g + 1) 0 1 g v3 1) = Res.hang
        rw [hsd2]
        simp only [Res.bind_ok]
        exact heapSortGo_tail2 pLt (g + 1) g 1 oX oY (by norm_num)

/-- With a reflexively-false address order, `siftDown` from root 0 on
three equal entities is a no-op for any positive budget. -/
theorem siftDownGo_okAAA (pLt : MapObject → MapObject → Bool) (g : Nat)
    (hp : pLt oA oA = false) :
    ∀ s : Int, siftDownGo pLt s (g + 1) 0 [oA, oA, oA] = .ok [oA, oA, oA] := by
  intro s
  by_cases hs : 2 * 0 + 1 ≤ s
  · rw [siftDownGo.eq_def]
    dsimp only
    rw [if_pos hs]
    have g0 : geti [oA, oA, oA] 0 = .ok oA := rfl
    have g1 : geti [oA, oA, oA] 1 = .ok oA := rfl
    have g2 : geti [oA, oA, oA] 2 = .ok oA := rfl
    by_cases hs2 : (2 : Int) ≤ s
    · simp [g0, g1, g2, hp, hs2]
    · simp [g0, g1, g2, hp, hs2]
  · exact siftDownGo_skip pLt s (g + 1) 0 _ hs

/-- Divergent tail of the swap loop on the three-equal-entity heap:
the buffer never changes, `last = 2` never changes, only `end` drops. -/
theorem heapSortGo_tailAAA (pLt : MapObject → MapObject → Bool) (g : Nat)
    (hp : pLt oA oA = false) :
    ∀ (f : Nat) (e : Int), heapSortGo pLt (g + 1) 0 2 f [oA, oA, oA] e = .hang := by
  intro f
  induction f with
  | zero =>
    intro e
    rw [heapSortGo.eq_def]
    dsimp only
    rw [if_pos (by norm_num)]
  | succ f ih =>
    intro e
    rw [heapSortGo.eq_def]
    dsimp only
    rw [if_pos (by norm_num)]
    have h1 : geti [oA, oA, oA] 0 = .ok oA := rfl
    have h2 : geti [oA, oA, oA] 2 = .ok oA := rfl
    have h3 : seti [oA, oA, oA] 0 oA = .ok [oA, oA, oA] := rfl
    have h4 : seti [oA, oA, oA] 2 oA = .ok [oA, oA, oA] := rfl
    rw [h1]
    simp only [Res.bind_ok]
    rw [h2]
    simp only [Res.bind_ok]
    rw [h3]
    simp only [Res.bind_ok]
    rw [h4]
    simp only [Res.bind_ok]
    rw [siftDownGo_okAAA pLt g hp (e - 1)]
    simp only [Res.bind_ok]
    exact ih (e - 1)

set_option maxHeartbeats 800000 in
/-- **C7.** The heap fallback never produces a sorted range: on a
three-entity range it never returns for any address order and any loop
budget — either a `siftDown` branch fires forever, or the swap loop
spins with its undecremented `last` (and its comparisons are address
comparisons, not name comparisons, in the first place). -/
theorem heapSortF_fallback_never_sorts :
    ∀ (pLt : MapObject → MapObject → Bool) (F : Nat),
      heapSortF pLt F [oA, oA, oA] 0 3 = .hang := by
  intro pLt F
  cases F with
  | zero => rfl
  | succ g =>
    cases hp : pLt oA oA with
    | true =>
      have hsd := siftDownGo_stuckFirst pLt 2 0 [oA, oA, oA] oA oA (by norm_num) rfl rfl hp
      show Res.bind
          (Res.bind (siftDownGo pLt 2 (g + 1) 0 [oA, oA, oA])
            (fun v => heapifyGo pLt (g + 1) 0 2 0 v))
          (fun v => heapSortGo pLt (g + 1) 0 2 (g + 1) v 3) = Res.hang
      rw [hsd (g + 1)]
      rfl
    | false =>
      show Res.bind
          (Res.bind (siftDownGo pLt 2 (g + 1) 0 [oA, oA, oA])
            (fun v => heapifyGo pLt (g + 1) 0 2 0 v))
          (fun v => heapSortGo pLt (g + 1) 0 2 (g + 1) v 3) = Res.hang
      rw [siftDownGo_okAAA pLt g hp 2]
      simp only [Res.bind_ok]
      have hify : heapifyGo pLt (g + 1) 0 2 0 [oA, oA, oA] = .ok [oA, oA, oA] := rfl
      rw [hify]
      simp only [Res.bind_ok]
      exact heapSortGo_tailAAA pLt g hp (g + 1) 3

/-- **C3 (amended).** The size governing `introSort`'s base cases is
the whole buffer's size `vec.size()`, not the range size `end - begin`:
a buffer of size ≤ 1 is returned unchanged, and a buffer of exactly two
elements is compare-exchanged at absolute positions 0 and 1 — swapped
iff the first is not strictly less than the second by case-insensitive
name — regardless of `begin`, `end` and the depth. -/
theorem introSort_base_cases_use_buffer_size
    (pLt : MapObject → MapObject → Bool) (F d : Nat) (b e : Int) :
    (∀ vec : List MapObject, vec.length ≤ 1 → introSort pLt F d vec b e = .ok vec) ∧
    (∀ x y : MapObject, introSort pLt F d [x, y] b e =
      .ok (if ciGE x.name y.name then [y, x] else [x, y])) := by
  constructor
  · intro vec hlen
    match vec, hlen with
    | [], _ => rw [introSort.eq_def]; simp
    | [x], _ => rw [introSort.eq_def]; simp
  · intro x y
    rw [introSort.eq_def]
    dsimp only
    rw [if_neg (by norm_num), if_pos (by norm_num)]
    have g0 : geti [x, y] 0 = .ok x := rfl
    have g1 : geti [x, y] 1 = .ok y := rfl
    rw [g0]
    simp only [Res.bind_ok]
    rw [g1]
    simp only [Res.bind_ok]
    cases hc : ciGE x.name y.name with
    | true =>
      simp only [if_pos]
      have s0 : seti [x, y] 0 y = .ok [y, y] := rfl
      have s1 : seti [y, y] 1 x = .ok [y, x] := rfl
      rw [s0]
      simp only [Res.bind_ok]
      rw [s1]
    | false => simp

/-- **C3 (counterexample).** A call whose *range* `[0, 1)` has size
`1 ≤ 1` — which the claim says changes nothing — rewrites the buffer
(and even loses entity `oC`), because the code's `n` is `vec.size() = 3`. -/
theorem introSort_small_range_changes_buffer :
    introSort (fun _ _ => false) 1 1 [oA, oB, oC] 0 1 = .ok [oA, oB, oA] ∧
    [oA, oB, oA] ≠ [oA, oB, oC] := by
  constructor
  · decide
  · decide

/-- Witness for the amended C3 at a concrete input: a two-element
buffer with `begin = 5`, `end = 7` is still compare-exchanged at
positions 0 and 1. -/
theorem introSort_base_cases_use_buffer_size_witness :
    introSort (fun _ _ => false) 1 0 [oB, oA] 5 7 = .ok [oA, oB] := by
  have h := (introSort_base_cases_use_buffer_size
    (fun _ _ => false) 1 0 5 7).2 oB oA
  simpa using h

/-- **C6.** `partition` writes its rearranged candidates at the
absolute slots `0` and `vec.size() - 1`, not at `begin` and `end - 1`:
on the buffer `[oX, oC, oB, oA]` with range `[1, 4)` the median
selection is per the claim (`oB` is the median of `oC`, `oB`, `oA`),
but slot 0 — outside the range — is overwritten, entity `oX` is lost
and `oC` duplicated. -/
theorem partitionF_writes_outside_range :
    partitionF [oX, oC, oB, oA] 1 4 = .ok ([oA, oB, oC, oC], 1) ∧
    ¬ ([oA, oB, oC, oC].Perm [oX, oC, oB, oA]) := by
  constructor
  · decide
  · decide

theorem geti_zero (x : MapObject) (l : List MapObject) : geti (x :: l) 0 = .ok x := rfl

theorem geti_succ (x : MapObject) (l : List MapObject) (i : Int) (h : 0 ≤ i) :
    geti (x :: l) (i + 1) = geti l i := by
  unfold geti
  rw [if_pos (by omega), if_pos h]
  have ht : (i + 1).toNat = i.toNat + 1 := by omega
  rw [ht, List.get?_cons_succ]

theorem geti_append (C l : List MapObject) (j : Int) (h : 0 ≤ j) :
    geti (C ++ l) ((C.length : Int) + j) = geti l j := by
  induction C with
  | nil => simp
  | cons c C ih =>
    have hc : ((C.length + 1 : Nat) : Int) + j = ((C.length : Int) + j) + 1 := by
      push_cast
      ring
    simp only [List.cons_append, List.length_cons]
    rw [hc, geti_succ _ _ _ (by omega), ih]

theorem removeAti_append (C : List MapObject) (x : MapObject) (rest : List MapObject) :
    removeAti (C ++ x :: rest) (C.length : Int) = .ok (C ++ rest) := by
  unfold removeAti
  rw [if_pos (by simp only [List.length_append, List.length_cons]; push_cast; omega)]
  congr 1
  have ht : ((C.length : Int)).toNat = C.length := by omega
  rw [ht]
  induction C with
  | nil => rfl
  | cons c C ih => simpa using ih

theorem insi_append (C : List MapObject) (x : MapObject) (rest : List MapObject) :
    insi (C ++ rest) (C.length : Int) x = .ok (C ++ x :: rest) := by
  unfold insi
  rw [if_pos (by simp only [List.length_append, List.length_cons]; push_cast; omega)]
  congr 1
  have ht : ((C.length : Int)).toNat = C.length := by omega
  rw [ht]
  induction C with
  | nil => rfl
  | cons c C ih => simpa [List.insertIdx_succ_cons] using ih

theorem exciseGo_found (piv : MapObject) (M1 : List MapObject) :
    ∀ (C rest : List MapObject) (m : Nat), piv ∉ M1 →
      exciseGo piv (M1.length + 1 + m) (C.length : Int) (C ++ M1 ++ piv :: rest)
        = .ok (C ++ M1 ++ rest, true) := by
  induction M1 with
  | nil =>
    intro C rest m _
    have hs : ([] : List MapObject).length + 1 + m = m + 1 := by simp; omega
    rw [hs]
    simp only [List.append_nil]
    show Res.bind (geti (C ++ piv :: rest) (C.length : Int)) _ = _
    have hg : geti (C ++ piv :: rest) (C.length : Int) = .ok piv := by
      have h0 : (C.length : Int) = (C.length : Int) + 0 := by ring
      rw [h0, geti_append _ _ 0 le_rfl, geti_zero]
    rw [hg]
    simp only [Res.bind_ok, if_pos rfl]
    rw [removeAti_append]
    simp
  | cons x M1 ih =>
    intro C rest m hmem
    have hs : (x :: M1).length + 1 + m = (M1.length + 1 + m) + 1 := by simp; omega
    rw [hs]
    show Res.bind (geti (C ++ (x :: M1) ++ piv :: rest) (C.length : Int)) _ = _
    have hg : geti (C ++ (x :: M1) ++ piv :: rest) (C.length : Int) = .ok x := by
      have h0 : (C.length : Int) = (C.length : Int) + 0 := by ring
      rw [h0]
      have : C ++ (x :: M1) ++ piv :: rest = C ++ (x :: (M1 ++ piv :: rest)) := by simp
      rw [this, geti_append _ _ 0 le_rfl, geti_zero]
    rw [hg]
    simp only [Res.bind_ok]
    rw [if_neg (by intro hx; exact hmem (by simp [hx]))]
    have harg : (C.length : Int) + 1 = (((C ++ [x]).length : Nat) : Int) := by
      simp
    rw [harg]
    have hvec : C ++ (x :: M1) ++ piv :: rest = (C ++ [x]) ++ M1 ++ piv :: rest := by
      simp
    rw [hvec, ih (C ++ [x]) rest m (by intro hm; exact hmem (by simp [hm]))]
    simp

theorem reorderFront_eval (D : List MapObject) :
    ∀ (C T nv : List MapObject),
      reorderFront D.length (C.length : Int) (C ++ D ++ T) nv = .ok (D.reverse ++ nv) := by
  induction D with
  | nil => intro C T nv; simp [reorderFront]
  | cons x D ih =>
    intro C T nv
    show Res.bind (geti (C ++ (x :: D) ++ T) (C.length : Int)) _ = _
    have hg : geti (C ++ (x :: D) ++ T) (C.length : Int) = .ok x := by
      have h0 : (C.length : Int) = (C.length : Int) + 0 := by ring
      rw [h0]
      have hv : C ++ (x :: D) ++ T = C ++ (x :: (D ++ T)) := by simp
      rw [hv, geti_append _ _ 0 le_rfl, geti_zero]
    rw [hg]
    simp only [Res.bind_ok]
    have harg : (C.length : Int) + 1 = (((C ++ [x]).length : Nat) : Int) := by simp
    have hvec : C ++ (x :: D) ++ T = (C ++ [x]) ++ D ++ T := by simp
    rw [harg, hvec, ih (C ++ [x]) T (x :: nv)]
    simp

theorem reorderBack_eval (D : List MapObject) :
    ∀ (C nv : List MapObject),
      reorderBack D.length (C.length : Int) (C ++ D) nv = .ok (nv ++ D) := by
  induction D with
  | nil => intro C nv; simp [reorderBack]
  | cons x D ih =>
    intro C nv
    show Res.bind (geti (C ++ x :: D) (C.length : Int)) _ = _
    have hg : geti (C ++ x :: D) (C.length : Int) = .ok x := by
      have h0 : (C.length : Int) = (C.length : Int) + 0 := by ring
      rw [h0, geti_append _ _ 0 le_rfl, geti_zero]
    rw [hg]
    simp only [Res.bind_ok]
    have harg : (C.length : Int) + 1 = (((C ++ [x]).length : Nat) : Int) := by simp
    have hvec : C ++ x :: D = (C ++ [x]) ++ D := by simp
    rw [harg, hvec, ih (C ++ [x]) (nv ++ [x])]
    simp

theorem reorderMid_eval (check : List Char) (piv : MapObject) (D : List MapObject) :
    ∀ (C T Pfx L G : List MapObject) (pl : Int),
      reorderMid check (Pfx.length : Int) D.length (C.length : Int)
          (C ++ D ++ T) (Pfx ++ L ++ piv :: G) pl
        = .ok (Pfx ++ (D.filter fun o => ciGE check o.name).reverse ++ L ++
                piv :: (G ++ D.filter fun o => !(ciGE check o.name)),
               pl + ((D.filter fun o => ciGE check o.name).length : Int)) := by
  induction D with
  | nil =>
    intro C T Pfx L G pl
    simp [reorderMid]
  | cons x D ih =>
    intro C T Pfx L G pl
    show Res.bind (geti (C ++ (x :: D) ++ T) (C.length : Int)) _ = _
    have hg : geti (C ++ (x :: D) ++ T) (C.length : Int) = .ok x := by
      have h0 : (C.length : Int) = (C.length : Int) + 0 := by ring
      rw [h0]
      have hv : C ++ (x :: D) ++ T = C ++ (x :: (D ++ T)) := by simp
      rw [hv, geti_append _ _ 0 le_rfl, geti_zero]
    rw [hg]
    simp only [Res.bind_ok]
    have harg : (C.length : Int) + 1 = (((C ++ [x]).length : Nat) : Int) := by simp
    have hvec : C ++ (x :: D) ++ T = (C ++ [x]) ++ D ++ T := by simp
    cases hx : ciGE check x.name with
    | true =>
      simp only [if_pos]
      have hins : insi (Pfx ++ L ++ piv :: G) (Pfx.length : Int) x
          = .ok (Pfx ++ (x :: L) ++ piv :: G) := by
        have h1 : Pfx ++ L ++ piv :: G = Pfx ++ (L ++ piv :: G) := by simp
        rw [h1, insi_append]
        simp
      rw [hins]
      simp only [Res.bind_ok]
      rw [harg, hvec, ih (C ++ [x]) T Pfx (x :: L) G (pl + 1)]
      simp [hx, List.filter_cons]
      try push_cast
      try ring
      try omega
    | false =>
      simp only [Bool.false_eq_true, if_false]
      have hnv : Pfx ++ L ++ piv :: G ++ [x] = Pfx ++ L ++ piv :: (G ++ [x]) := by simp
      rw [harg, hvec]
      have := ih (C ++ [x]) T Pfx L (G ++ [x]) pl
      rw [show (Pfx ++ L ++ piv :: G) ++ [x] = Pfx ++ L ++ piv :: (G ++ [x]) by simp]
      rw [this]
      simp [hx, List.filter_cons]
      try push_cast
      try ring
      try omega

/-- **C5 (amended).** `reorder(buf, pivot, begin, end)` on a buffer
`P ++ M1 ++ pivot :: M2 ++ S` with `begin = |P|`,
`end = |P| + |M1| + 1 + |M2|` and the pivot's first identity-equal
occurrence the shown one: the prefix `[0, begin)` is *reversed* (the
`push_front` loop), the middle is the range's elements whose name is
*less-or-equal* to the pivot's (`compare(pivot, elem) >= 0`), in
reverse scan order, then the pivot, then the name-greater elements in
scan order; the suffix `[end, len)` follows unchanged; the return value
is `begin` plus the count of less-or-equal elements. -/
theorem reorderF_characterization (P M1 M2 S : List MapObject) (piv : MapObject)
    (hM1 : piv ∉ M1) :
    reorderF (P ++ M1 ++ piv :: M2 ++ S) piv (P.length : Int)
        ((P.length : Int) + M1.length + 1 + M2.length) =
      .ok (P.reverse ++ ((M1 ++ M2).filter fun o => ciGE piv.name o.name).reverse ++
            piv :: ((M1 ++ M2).filter (fun o => !(ciGE piv.name o.name)) ++ S),
           (P.length : Int) + (((M1 ++ M2).filter fun o => ciGE piv.name o.name).length : Int)) := by
  rw [show P ++ M1 ++ piv :: M2 ++ S = P ++ M1 ++ piv :: (M2 ++ S) from by simp]
  unfold reorderF
  dsimp only
  have hsteps : ((P.length : Int) + M1.length + 1 + M2.length - P.length).toNat
      = M1.length + 1 + M2.length := by omega
  rw [hsteps, exciseGo_found piv M1 P (M2 ++ S) M2.length hM1]
  simp only [Res.bind_ok]
  have hb : ((P.length : Int)).toNat = P.length := by omega
  rw [hb]
  have hfront : reorderFront P.length 0 (P ++ M1 ++ (M2 ++ S)) [piv]
      = .ok (P.reverse ++ [piv]) := by
    have h := reorderFront_eval P ([] : List MapObject) (M1 ++ (M2 ++ S)) [piv]
    simpa using h
  simp only [if_true]
  rw [hfront]
  simp only [Res.bind_ok]
  have hsteps2 : ((P.length : Int) + M1.length + 1 + M2.length - 1 - P.length).toNat
      = M1.length + M2.length := by omega
  rw [hsteps2]
  have hmid : reorderMid piv.name (P.length : Int) (M1.length + M2.length)
      (P.length : Int) (P ++ M1 ++ (M2 ++ S)) (P.reverse ++ [piv]) (P.length : Int)
      = .ok (P.reverse ++ ((M1 ++ M2).filter fun o => ciGE piv.name o.name).reverse ++
              piv :: ((M1 ++ M2).filter fun o => !(ciGE piv.name o.name)),
             (P.length : Int) +
               (((M1 ++ M2).filter fun o => ciGE piv.name o.name).length : Int)) := by
    have h := reorderMid_eval piv.name piv (M1 ++ M2) P S P.reverse
      ([] : List MapObject) ([] : List MapObject) (P.length : Int)
    simpa [List.append_assoc] using h
  rw [hmid]
  simp only [Res.bind_ok]
  have hlen : (((P ++ M1 ++ (M2 ++ S)).length : Int)
      - ((P.length : Int) + M1.length + 1 + M2.length - 1)).toNat = S.length := by
    simp only [List.length_append]
    push_cast
    omega
  rw [hlen]
  have hback : reorderBack S.length ((P.length : Int) + M1.length + 1 + M2.length - 1)
      (P ++ M1 ++ (M2 ++ S))
      (P.reverse ++ ((M1 ++ M2).filter fun o => ciGE piv.name o.name).reverse ++
        piv :: ((M1 ++ M2).filter fun o => !(ciGE piv.name o.name)))
      = .ok ((P.reverse ++ ((M1 ++ M2).filter fun o => ciGE piv.name o.name).reverse ++
              piv :: ((M1 ++ M2).filter fun o => !(ciGE piv.name o.name))) ++ S) := by
    have h := reorderBack_eval S (P ++ (M1 ++ M2))
      (P.reverse ++ ((M1 ++ M2).filter fun o => ciGE piv.name o.name).reverse ++
        piv :: ((M1 ++ M2).filter fun o => !(ciGE piv.name o.name)))
    have hidx : (((P ++ (M1 ++ M2)).length : Nat) : Int)
        = (P.length : Int) + M1.length + 1 + M2.length - 1 := by
      simp only [List.length_append]
      push_cast
      ring
    rw [hidx] at h
    have hv : (P ++ (M1 ++ M2)) ++ S = P ++ M1 ++ (M2 ++ S) := by simp
    rw [hv] at h
    exact h
  rw [hback]
  simp only [Res.bind_ok, List.append_assoc, List.cons_append]

/-- **C5 (counterexample).** `reorder` does not leave the prefix
`[0, begin)` unchanged: on the buffer `[oX, oY, oB, oC, oA]` with pivot
`oC` and range `[2, 5)` the prefix comes out reversed (`push_front`
reverses it), the kept range elements that are `≤` the pivot (not `≥`)
end up *before* the pivot, and the returned index is `begin` plus the
count of `≤`-elements (4, not 2). -/
theorem reorderF_prefix_reversed :
    reorderF [oX, oY, oB, oC, oA] oC 2 5 = .ok ([oY, oX, oA, oB, oC], 4) ∧
    List.take 2 [oY, oX, oA, oB, oC] ≠ List.take 2 [oX, oY, oB, oC, oA] := by
  constructor
  · decide
  · decide

/-- Witness for the amended C5 at a concrete input. -/
theorem reorderF_characterization_witness :
    (oC ∉ [oB]) ∧
    reorderF [oX, oY, oB, oC, oA] oC 2 5 = .ok ([oY, oX, oA, oB, oC], 4) := by
  refine ⟨by decide, ?_⟩
  have h := reorderF_characterization [oX, oY] [oB] [oA] [] oC (by decide)
  exact h.trans (by decide)

theorem geti_eq_ok (l : List MapObject) (i : Int) (h0 : 0 ≤ i)
    (h1 : i.toNat < l.length) : geti l i = .ok l[i.toNat] := by
  unfold geti
  rw [if_pos h0]
  rw [List.get?_eq_getElem?, List.getElem?_eq_getElem h1]

theorem moveInsertGo_eval (moving : List MapObject) (t : Int) :
    ∀ (k : Nat) (i : Int) (pre suf : List MapObject),
      0 ≤ i → i.toNat + k ≤ moving.length → t + i = (pre.length : Int) →
      moveInsertGo moving t k i (pre ++ suf)
        = .ok (pre ++ (moving.drop i.toNat).take k ++ suf) := by
  intro k
  induction k with
  | zero => intro i pre suf h0 hk ht; simp [moveInsertGo]
  | succ k ih =>
    intro i pre suf h0 hk ht
    have hlt : i.toNat < moving.length := by omega
    show Res.bind (geti moving i) _ = _
    rw [geti_eq_ok moving i h0 hlt]
    simp only [Res.bind_ok]
    have hins : insi (pre ++ suf) (t + i) moving[i.toNat]
        = .ok (pre ++ moving[i.toNat] :: suf) := by
      rw [ht, insi_append]
    rw [hins]
    simp only [Res.bind_ok]
    have harg := ih (i + 1) (pre ++ [moving[i.toNat]]) suf (by omega)
      (by omega) (by simp; omega)
    rw [show ((pre ++ [moving[i.toNat]]) ++ suf : List MapObject)
        = pre ++ moving[i.toNat] :: suf from by simp] at harg
    have hd : moving.drop i.toNat = moving[i.toNat] :: moving.drop (i.toNat + 1) :=
      List.drop_eq_getElem_cons hlt
    have hi1 : (i + 1).toNat = i.toNat + 1 := by omega
    rw [harg, hi1, hd]
    simp only [List.take_succ_cons, List.cons_append, List.append_assoc, List.nil_append]

/-- **C8.** `moveObjects(from, to, count)` under its asserted
preconditions: the three-way no-op test returns the collection
unchanged, and otherwise (for in-range arguments, which the relocation
described by the claim presupposes) the `count` entities starting at
`from` reappear as a contiguous block at the destination with their
internal order preserved, all other entities keeping their relative
order. -/
theorem moveObjectsF_moves_block (l : List MapObject) (frm toArg cnt : Int)
    (hc : 0 ≤ cnt) (hno : toArg ≤ frm ∨ frm + cnt ≤ toArg) :
    (toArg = frm ∨ toArg = frm + cnt ∨ cnt = 0 → moveObjectsF frm toArg cnt l = .ok l) ∧
    (0 ≤ frm → frm + cnt ≤ (l.length : Int) → 0 ≤ toArg → toArg ≤ (l.length : Int) →
      ¬ (toArg = frm ∨ toArg = frm + cnt ∨ cnt = 0) →
      moveObjectsF frm toArg cnt l =
        .ok ((l.take frm.toNat ++ l.drop (frm + cnt).toNat).take
                (if toArg > frm then toArg - cnt else toArg).toNat
             ++ (l.drop frm.toNat).take cnt.toNat
             ++ (l.take frm.toNat ++ l.drop (frm + cnt).toNat).drop
                (if toArg > frm then toArg - cnt else toArg).toNat)) := by
  constructor
  · intro hnoop
    unfold moveObjectsF
    rw [if_neg (by omega), if_neg (by omega), if_pos hnoop]
  · intro hf0 hfc ht0 htl hnoop
    unfold moveObjectsF
    rw [if_neg (by omega), if_neg (by omega), if_neg hnoop]
    have herase : eraseRange l frm (frm + cnt)
        = .ok (l.take frm.toNat ++ l.drop (frm + cnt).toNat) := by
      unfold eraseRange
      rw [if_pos ⟨hf0, by omega, hfc⟩]
    rw [herase]
    simp only [Res.bind_ok]
    set base : List MapObject := l.take frm.toNat ++ l.drop (frm + cnt).toNat with hbase
    set t : Int := if toArg > frm then toArg - cnt else toArg with hT
    have hbaseLen : base.length = l.length - cnt.toNat := by
      rw [hbase]
      simp only [List.length_append, List.length_take, List.length_drop]
      omega
    have ht0' : 0 ≤ t := by
      rw [hT]
      split <;> omega
    have htle : t.toNat ≤ base.length := by
      rw [hbaseLen, hT]
      split <;> omega
    have hsplit := (List.take_append_drop t.toNat base).symm
    have hmove := moveInsertGo_eval (midQ l frm cnt) t cnt.toNat 0
      (base.take t.toNat) (base.drop t.toNat) le_rfl
      (by simp [midQ, List.length_take, List.length_drop]; omega)
      (by simp [List.length_take]; omega)
    rw [← hsplit] at hmove
    rw [hmove]
    simp [midQ, List.take_take]

/-- Witness for C8 at a concrete input: moving the block `[oB, oC]` of
`[oA, oB, oC, oX]` to the end. -/
theorem moveObjectsF_moves_block_witness :
    moveObjectsF 1 4 2 [oA, oB, oC, oX] = .ok [oA, oX, oB, oC] := by
  have h := (moveObjectsF_moves_block [oA, oB, oC, oX] 1 4 2 (by decide)
    (Or.inr (by decide))).2 (by decide) (by decide) (by decide) (by decide) (by decide)
  exact h.trans (by decide)

/-- Invariant of the clone-append loops (`initializeClone`'s and
`mergedWith`'s `foreach`): the counter only grows, back-references of
previously allocated handles are untouched, every handle added to the
group is fresh, and the group grows by exactly one handle per source
entity. -/
theorem addCloneH_fold (src : List Nat) :
    ∀ (g : OGrp) (st : St),
      st.nextH ≤ (src.foldl addCloneH (g, st)).2.nextH ∧
      (∀ h : Nat, h < st.nextH →
        (src.foldl addCloneH (g, st)).2.owner h = st.owner h) ∧
      (∀ h, h ∈ (src.foldl addCloneH (g, st)).1.objs → h ∈ g.objs ∨ st.nextH ≤ h) ∧
      (src.foldl addCloneH (g, st)).1.objs.length = g.objs.length + src.length := by
  induction src with
  | nil => exact fun g st => ⟨le_rfl, fun h _ => rfl, fun h hm => Or.inl hm, by simp⟩
  | cons x src ih =>
    intro g st
    have hac : (x :: src).foldl addCloneH (g, st) = src.foldl addCloneH
        ({ g with objs := g.objs ++ [st.nextH] },
         { nextH := st.nextH + 1,
           owner := fun k => if k = st.nextH then some g.gid else st.owner k }) := rfl
    obtain ⟨ih1, ih2, ih3, ih4⟩ := ih { g with objs := g.objs ++ [st.nextH] }
      { nextH := st.nextH + 1,
        owner := fun k => if k = st.nextH then some g.gid else st.owner k }
    rw [hac]
    refine ⟨?_, ?_, ?_, ?_⟩
    · have h1 := ih1
      dsimp only at h1
      omega
    · intro h hh
      rw [ih2 h (by dsimp only; omega)]
      dsimp only
      rw [if_neg (by omega)]
    · intro h hm
      rcases ih3 h hm with hg | hfresh
      · dsimp only at hg
        simp only [List.mem_append, List.mem_singleton] at hg
        rcases hg with hg | hg
        · exact Or.inl hg
        · exact Or.inr (by omega)
      · dsimp only at hfresh
        exact Or.inr (by omega)
    · have h4 := ih4
      dsimp only at h4
      simp only [List.length_append, List.length_cons, List.length_nil] at h4
      simp only [List.length_cons]
      omega

/-- **C10.** `mergedWith` is frame-safe: it leaves the two source
collections untouched (in particular the owning-collection
back-reference of every already-allocated handle, so A's and B's
entities still point at their own collections), every entity handle
placed in the merged result is a fresh clone — a member of neither A
nor B — and the merged result has exactly `|A| + |B|` entities. -/
theorem mergedWithH_frame (a b : OGrp) (st : St)
    (hA : ∀ h ∈ a.objs, h < st.nextH) (hB : ∀ h ∈ b.objs, h < st.nextH) :
    (∀ h : Nat, h < st.nextH → (mergedWithH a b st).2.owner h = st.owner h) ∧
    (∀ h, h ∈ (mergedWithH a b st).1.objs → h ∉ a.objs ∧ h ∉ b.objs) ∧
    (mergedWithH a b st).1.objs.length = a.objs.length + b.objs.length := by
  obtain ⟨h11, h12, h13, h14⟩ := addCloneH_fold a.objs ⟨st.nextH, []⟩
    { st with nextH := st.nextH + 1 }
  obtain ⟨h21, h22, h23, h24⟩ := addCloneH_fold b.objs
    (a.objs.foldl addCloneH (⟨st.nextH, []⟩, { st with nextH := st.nextH + 1 })).1
    (a.objs.foldl addCloneH (⟨st.nextH, []⟩, { st with nextH := st.nextH + 1 })).2
  have hmw : mergedWithH a b st = b.objs.foldl addCloneH
      ((a.objs.foldl addCloneH (⟨st.nextH, []⟩, { st with nextH := st.nextH + 1 })).1,
       (a.objs.foldl addCloneH (⟨st.nextH, []⟩, { st with nextH := st.nextH + 1 })).2) := by
    unfold mergedWithH cloneOGrpH initializeCloneH
    rfl
  dsimp only at h11 h12 h13 h14
  rw [hmw]
  refine ⟨?_, ?_, ?_⟩
  · intro h hh
    rw [h22 h (by omega), h12 h (by omega)]
  · intro h hm
    rcases h23 h hm with hm1 | hfresh
    · rcases h13 h hm1 with hnil | hfresh1
      · simp at hnil
      · constructor
        · intro hina
          have := hA h hina
          omega
        · intro hinb
          have := hB h hinb
          omega
    · have hge : st.nextH + 1 ≤ (a.objs.foldl addCloneH
          (⟨st.nextH, []⟩, { st with nextH := st.nextH + 1 })).2.nextH := h11
      constructor
      · intro hina
        have := hA h hina
        omega
      · intro hinb
        have := hB h hinb
        omega
  · rw [h24, h14]
    simp

/-- Witness for C10 at a concrete input: group A (gid 0) owning handle
1, group B (gid 2) owning handle 3, next fresh handle 4. -/
theorem mergedWithH_frame_witness :
    (mergedWithH ⟨0, [1]⟩ ⟨2, [3]⟩
        ⟨4, fun k => if k = 1 then some 0 else if k = 3 then some 2 else none⟩).2.owner 1
      = some 0 ∧
    (∀ h, h ∈ (mergedWithH ⟨0, [1]⟩ ⟨2, [3]⟩
        ⟨4, fun k => if k = 1 then some 0 else if k = 3 then some 2 else none⟩).1.objs →
      h ∉ ([1] : List Nat) ∧ h ∉ ([3] : List Nat)) ∧
    (mergedWithH ⟨0, [1]⟩ ⟨2, [3]⟩
        ⟨4, fun k => if k = 1 then some 0 else if k = 3 then some 2 else none⟩).1.objs.length
      = 2 := by
  have h := mergedWithH_frame ⟨0, [1]⟩ ⟨2, [3]⟩
    ⟨4, fun k => if k = 1 then some 0 else if k = 3 then some 2 else none⟩
    (by intro h hm; simp at hm; dsimp only; omega) (by intro h hm; simp at hm; dsimp only; omega)
  exact ⟨(h.1 1 (by norm_num)).trans (by norm_num), h.2.1, by simpa using h.2.2⟩
